import Mathlib

/-!
Verification of the Sudoku engine in src/script.js.

The board model and every operation below are translated from the source
file: boards are 9 by 9 grids of natural numbers with 0 meaning empty,
and the in-place mutation of the JavaScript functions is rendered as
explicit state passing.  Recursive searches carry a fuel argument and
return none when the fuel runs out; fuel 82 is shown to be enough for
every 9 by 9 board.  The random shuffles of the source are modelled by
quantifying over the sequence of candidate lists (for the generator) and
over the visiting order of cells (for the carver).
-/

set_option linter.constructorNameAsVariable false

namespace Sudoku

/-- A Sudoku board: a 9 by 9 grid of natural numbers, 0 meaning empty. -/
abbrev Board := Fin 9 → Fin 9 → Nat

/-- Write value v at cell (r, c), leaving all other cells unchanged. -/
def setCell (b : Board) (r c : Fin 9) (v : Nat) : Board :=
  fun i j => if i = r ∧ j = c then v else b i j

/-- The all-empty board, as built at the start of initializeGame. -/
def emptyBoard : Board := fun _ _ => 0

/-- All 81 positions in row-major order, mirroring the nested loops of the source. -/
def allPositions : List (Fin 9 × Fin 9) :=
  (List.finRange 9).flatMap (fun i => (List.finRange 9).map (fun j => (i, j)))

/-- findEmptyCell from the source: the first empty cell in row-major order. -/
def findEmptyCell (b : Board) : Option (Fin 9 × Fin 9) :=
  allPositions.find? (fun p => b p.1 p.2 == 0)

/-- Row floor(n/3)*3 + d of the box band of row n, as the box loops of the source. -/
def boxCell (n : Fin 9) (d : Fin 3) : Fin 9 :=
  ⟨n.val / 3 * 3 + d.val, by have h1 := n.isLt; have h2 := d.isLt; omega⟩

/-- isValidPlacement from the source: duplicate checks on the row, the column and
the 3 by 3 box, each excluding the queried position itself. -/
def isValidPlacement (b : Board) (num : Nat) (row col : Fin 9) : Bool :=
  ((List.finRange 9).all fun j => !(b row j == num && !(col == j))) &&
  (((List.finRange 9).all fun i => !(b i col == num && !(row == i))) &&
   ((List.finRange 3).all fun di => (List.finRange 3).all fun dj =>
     !(b (boxCell row di) (boxCell col dj) == num &&
       !(boxCell row di == row && boxCell col dj == col))))

/-- All 9 offset pairs inside a box, in row-major order. -/
def allPairs3 : List (Fin 3 × Fin 3) :=
  (List.finRange 3).flatMap (fun di => (List.finRange 3).map (fun dj => (di, dj)))

/-- Row q*3 + d, the d-th row of the q-th box band. -/
def boxIdx (q : Fin 3) (d : Fin 3) : Fin 9 :=
  ⟨q.val * 3 + d.val, by have h1 := q.isLt; have h2 := d.isLt; omega⟩

/-- The list of values of row i. -/
def rowList (b : Board) (i : Fin 9) : List Nat :=
  (List.finRange 9).map (fun j => b i j)

/-- The list of values of column j. -/
def colList (b : Board) (j : Fin 9) : List Nat :=
  (List.finRange 9).map (fun i => b i j)

/-- The list of values of the box with band q1 and stack q2. -/
def boxList (b : Board) (q1 q2 : Fin 3) : List Nat :=
  allPairs3.map (fun d => b (boxIdx q1 d.1) (boxIdx q2 d.2))

/-- A Solved Grid: every cell is in [1,9] and every row, column and box
contains each value of 1..9 exactly once. -/
def isSolvedGrid (b : Board) : Prop :=
  (∀ i j, 1 ≤ b i j ∧ b i j ≤ 9) ∧
  (∀ i : Fin 9, ∀ v : Fin 9, (rowList b i).count (v.val + 1) = 1) ∧
  (∀ j : Fin 9, ∀ v : Fin 9, (colList b j).count (v.val + 1) = 1) ∧
  (∀ q1 q2 : Fin 3, ∀ v : Fin 9, (boxList b q1 q2).count (v.val + 1) = 1)

instance (b : Board) : Decidable (isSolvedGrid b) := by
  unfold isSolvedGrid; infer_instance

/-- Board g extends board b: g agrees with b on every non-zero cell of b. -/
def extendsB (b g : Board) : Prop :=
  ∀ i j, b i j ≠ 0 → g i j = b i j

instance (b g : Board) : Decidable (extendsB b g) := by
  unfold extendsB; infer_instance

/-- Every entry of the board is at most 9. -/
def inRange (b : Board) : Prop := ∀ i j, b i j ≤ 9

instance (b : Board) : Decidable (inRange b) := by
  unfold inRange; infer_instance

/-- Every non-zero entry is a valid placement at its own cell: the board has
no row, column or box conflict. -/
def okBoard (b : Board) : Prop :=
  ∀ i j, b i j ≠ 0 → isValidPlacement b (b i j) i j = true

instance (b : Board) : Decidable (okBoard b) := by
  unfold okBoard; infer_instance

/-- The board has no empty cell. -/
def fullBoard (b : Board) : Prop := ∀ i j, b i j ≠ 0

instance (b : Board) : Decidable (fullBoard b) := by
  unfold fullBoard; infer_instance

/-- A Solved Grid encoded as a function into Fin 9 (value minus one). -/
def toBoard (f : Fin 9 → Fin 9 → Fin 9) : Board := fun i j => (f i j).val + 1

/-- The completions of a board b: encoded solved grids that extend b. -/
def completions (b : Board) : Finset (Fin 9 → Fin 9 → Fin 9) :=
  Finset.univ.filter (fun f => isSolvedGrid (toBoard f) ∧ extendsB b (toBoard f))

/-- The number of completions of a board to a Solved Grid. -/
def numSolutions (b : Board) : Nat := (completions b).card

/-- The number of empty cells of a board. -/
def emptyCount (b : Board) : Nat :=
  (Finset.univ.filter (fun p : Fin 9 × Fin 9 => b p.1 p.2 = 0)).card

/-- The candidate loop of the solve closure inside countSolutions: try each
num of nums in order at cell (r, c); on a result whose count exceeds 1 the
source returns at once without restoring the cell, otherwise the cell is
restored (here: the original board b is kept) and the loop continues. -/
def csTry (next : Board → Nat → Option (Nat × Board)) (b : Board) (r c : Fin 9) :
    List Nat → Nat → Option (Nat × Board)
  | [], cnt => some (cnt, b)
  | num :: rest, cnt =>
    if isValidPlacement b num r c then
      match next (setCell b r c num) cnt with
      | none => none
      | some (cnt', b') =>
        if 1 < cnt' then some (cnt', b') else csTry next b r c rest cnt'
    else csTry next b r c rest cnt

/-- The solve closure inside countSolutions, with fuel.  The state threads the
running count and the board (the source mutates the board in place); none
means the fuel ran out, which never happens from fuel 82. -/
def csSolve : Nat → Board → Nat → Option (Nat × Board)
  | 0, _, _ => none
  | fuel + 1, b, cnt =>
    match findEmptyCell b with
    | none => some (cnt + 1, b)
    | some (r, c) => csTry (csSolve fuel) b r c [1, 2, 3, 4, 5, 6, 7, 8, 9] cnt

/-- countSolutions from the source: run the capped search with count 0. -/
def countSolutions (b : Board) : Nat :=
  match csSolve 82 b 0 with
  | some res => res.1
  | none => 0

/-- The carving loop of createPuzzle over the shuffled cell list: stop once
removed reaches holes; otherwise zero the visited cell, probe the solution
count on a copy, and keep the removal only when the count is exactly 1. -/
def carve (holes : Nat) : List (Fin 9 × Fin 9) → Board → Nat → Board
  | [], p, _ => p
  | pos :: rest, p, removed =>
    if holes ≤ removed then p
    else
      if countSolutions (setCell p pos.1 pos.2 0) = 1 then
        carve holes rest (setCell p pos.1 pos.2 0) (removed + 1)
      else carve holes rest p removed

/-- createPuzzle from the source; the random permutation of the 81 cells is
modelled by the explicit order argument. -/
def createPuzzle (board : Board) (holes : Nat) (order : List (Fin 9 × Fin 9)) : Board :=
  carve holes order board 0

/-- The candidate loop of generateSolvedSudokuGrid: try each num of nums in
order at cell (r, c); a successful recursive call is returned at once, a
failed one restores the cell (here: the original board b is kept). -/
def genTry (next : Board → Nat → Option (Board × Bool × Nat)) (b : Board) (r c : Fin 9) :
    List Nat → Nat → Option (Board × Bool × Nat)
  | [], k => some (b, false, k)
  | num :: rest, k =>
    if isValidPlacement b num r c then
      match next (setCell b r c num) k with
      | none => none
      | some (b', true, k') => some (b', true, k')
      | some (_, false, k') => genTry next b r c rest k'
    else genTry next b r c rest k

/-- generateSolvedSudokuGrid from the source, with fuel.  streams k is the
shuffled candidate list produced by the k-th call to shuffle; the counter k
is threaded through the search in call order. -/
def genSolve (streams : Nat → List Nat) : Nat → Board → Nat → Option (Board × Bool × Nat)
  | 0, _, _ => none
  | fuel + 1, b, k =>
    match findEmptyCell b with
    | none => some (b, true, k)
    | some (r, c) => genTry (genSolve streams fuel) b r c (streams k) (k + 1)

/-- generateSolvedSudokuGrid run with enough fuel for any 9 by 9 board,
returning the final board and the boolean result of the source function. -/
def generateSolvedSudokuGrid (streams : Nat → List Nat) (b : Board) :
    Option (Board × Bool) :=
  match genSolve streams 82 b 0 with
  | none => none
  | some (b', ok, _) => some (b', ok)

/-- A concrete Solved Grid, used to witness that the empty board has a
completion. -/
def demoGrid : Board :=
  fun i j => (i.val * 3 + i.val / 3 + j.val) % 9 + 1

/-! ### Basic facts about cells, the empty-cell search and the empty count -/

lemma mem_allPositions (p : Fin 9 × Fin 9) : p ∈ allPositions := by
  unfold allPositions
  simp only [List.mem_flatMap, List.mem_map, List.mem_finRange, true_and]
  exact ⟨p.1, p.2, rfl⟩

lemma setCell_self (b : Board) (r c : Fin 9) (v : Nat) : setCell b r c v r c = v := by
  simp [setCell]

lemma setCell_other (b : Board) (r c i j : Fin 9) (v : Nat) (h : ¬(i = r ∧ j = c)) :
    setCell b r c v i j = b i j := by
  simp only [setCell, if_neg h]

lemma findEmptyCell_eq_none_iff (b : Board) :
    findEmptyCell b = none ↔ fullBoard b := by
  unfold findEmptyCell fullBoard
  rw [List.find?_eq_none]
  constructor
  · intro h i j
    have := h (i, j) (mem_allPositions _)
    simpa using this
  · intro h p _
    simpa using h p.1 p.2

lemma findEmptyCell_some (b : Board) (r c : Fin 9)
    (h : findEmptyCell b = some (r, c)) : b r c = 0 := by
  have := List.find?_some h
  simpa using this

lemma emptyCount_le_81 (b : Board) : emptyCount b ≤ 81 := by
  unfold emptyCount
  calc (Finset.univ.filter (fun p : Fin 9 × Fin 9 => b p.1 p.2 = 0)).card
      ≤ (Finset.univ : Finset (Fin 9 × Fin 9)).card := Finset.card_filter_le _ _
    _ = 81 := by decide

lemma emptyCount_setCell_lt (b : Board) (r c : Fin 9) (v : Nat)
    (h0 : b r c = 0) (hv : v ≠ 0) :
    emptyCount (setCell b r c v) < emptyCount b := by
  unfold emptyCount
  apply Finset.card_lt_card
  constructor
  · intro p hp
    simp only [Finset.mem_filter, Finset.mem_univ, true_and] at hp ⊢
    by_cases hpc : p.1 = r ∧ p.2 = c
    · rw [setCell, if_pos hpc] at hp
      exact absurd hp hv
    · rwa [setCell, if_neg hpc] at hp
  · intro hsub
    have h1 : (r, c) ∈ Finset.univ.filter (fun p : Fin 9 × Fin 9 => b p.1 p.2 = 0) := by
      simp [h0]
    have h2 := hsub h1
    simp only [Finset.mem_filter, Finset.mem_univ, true_and] at h2
    rw [setCell, if_pos ⟨rfl, rfl⟩] at h2
    exact hv h2

lemma emptyCount_setZero_le (b : Board) (r c : Fin 9) :
    emptyCount (setCell b r c 0) ≤ emptyCount b + 1 := by
  unfold emptyCount
  have hsub : Finset.univ.filter (fun p : Fin 9 × Fin 9 => setCell b r c 0 p.1 p.2 = 0) ⊆
      insert (r, c) (Finset.univ.filter (fun p : Fin 9 × Fin 9 => b p.1 p.2 = 0)) := by
    intro p hp
    simp only [Finset.mem_filter, Finset.mem_univ, true_and] at hp
    by_cases hpc : p.1 = r ∧ p.2 = c
    · have : p = (r, c) := Prod.ext hpc.1 hpc.2
      simp [this]
    · rw [setCell, if_neg hpc] at hp
      simp [hp]
  calc _ ≤ (insert (r, c) (Finset.univ.filter (fun p : Fin 9 × Fin 9 => b p.1 p.2 = 0))).card :=
        Finset.card_le_card hsub
    _ ≤ _ + 1 := Finset.card_insert_le _ _

lemma emptyCount_eq_zero_iff (b : Board) : emptyCount b = 0 ↔ fullBoard b := by
  unfold emptyCount fullBoard
  rw [Finset.card_eq_zero, Finset.filter_eq_empty_iff]
  constructor
  · intro h i j
    exact h (Finset.mem_univ ((i, j) : Fin 9 × Fin 9))
  · intro h p _
    exact h p.1 p.2

/-! ### Characterization of isValidPlacement -/

lemma isValid_iff (b : Board) (num : Nat) (row col : Fin 9) :
    isValidPlacement b num row col = true ↔
      (∀ j, b row j = num → j = col) ∧
      (∀ i, b i col = num → i = row) ∧
      (∀ di dj : Fin 3, b (boxCell row di) (boxCell col dj) = num →
        boxCell row di = row ∧ boxCell col dj = col) := by
  unfold isValidPlacement
  simp only [Bool.and_eq_true, List.all_eq_true, List.mem_finRange, true_implies,
    Bool.not_eq_true', Bool.and_eq_false_iff, beq_eq_false_iff_ne, ne_eq,
    Bool.not_eq_false', beq_iff_eq, Bool.and_eq_true]
  constructor
  · rintro ⟨h1, h2, h3⟩
    refine ⟨fun j hj => ?_, fun i hi => ?_, fun di dj hd => ?_⟩
    · rcases h1 j with h | h
      · exact absurd hj h
      · exact h.symm
    · rcases h2 i with h | h
      · exact absurd hi h
      · exact h.symm
    · rcases h3 di dj with h | h
      · exact absurd hd h
      · exact ⟨h.1, h.2⟩
  · rintro ⟨h1, h2, h3⟩
    refine ⟨fun j => ?_, fun i => ?_, fun di dj => ?_⟩
    · by_cases hj : b row j = num
      · exact Or.inr (h1 j hj).symm
      · exact Or.inl hj
    · by_cases hi : b i col = num
      · exact Or.inr (h2 i hi).symm
      · exact Or.inl hi
    · by_cases hd : b (boxCell row di) (boxCell col dj) = num
      · rcases h3 di dj hd with ⟨ha, hb⟩
        exact Or.inr ⟨ha, hb⟩
      · exact Or.inl hd

lemma boxCell_div (r : Fin 9) (d : Fin 3) : (boxCell r d).val / 3 = r.val / 3 := by
  simp only [boxCell]
  omega

lemma boxCell_of_div_eq (i r : Fin 9) (h : i.val / 3 = r.val / 3) :
    boxCell r ⟨i.val % 3, Nat.mod_lt _ (by omega)⟩ = i := by
  apply Fin.ext
  simp only [boxCell]
  omega

/-- The box band index of a row or column. -/
def boxOf (n : Fin 9) : Fin 3 := ⟨n.val / 3, by have := n.isLt; omega⟩

/-- The offset of a row or column inside its box band. -/
def offOf (n : Fin 9) : Fin 3 := ⟨n.val % 3, by have := n.isLt; omega⟩

lemma boxIdx_boxOf_offOf (n : Fin 9) : boxIdx (boxOf n) (offOf n) = n := by
  apply Fin.ext
  simp only [boxIdx, boxOf, offOf]
  omega

lemma boxCell_eq_boxIdx (n : Fin 9) (d : Fin 3) : boxCell n d = boxIdx (boxOf n) d := by
  apply Fin.ext
  simp only [boxCell, boxIdx, boxOf]

lemma boxIdx_inj {q : Fin 3} {d e : Fin 3} (h : boxIdx q d = boxIdx q e) : d = e := by
  have := congrArg Fin.val h
  simp only [boxIdx] at this
  exact Fin.ext (by omega)

/-! ### Preservation of the no-conflict invariant -/

lemma inRange_setCell (b : Board) (r c : Fin 9) (v : Nat)
    (hb : inRange b) (hv : v ≤ 9) : inRange (setCell b r c v) := by
  intro i j
  by_cases h : i = r ∧ j = c
  · rw [setCell, if_pos h]; exact hv
  · rw [setCell, if_neg h]; exact hb i j

lemma okBoard_setCell (b : Board) (r c : Fin 9) (v : Nat)
    (hok : okBoard b) (h0 : b r c = 0) (hval : isValidPlacement b v r c = true)
    (hv : 1 ≤ v) : okBoard (setCell b r c v) := by
  rw [isValid_iff] at hval
  obtain ⟨hvr, hvc, hvb⟩ := hval
  intro i j hne
  by_cases hij : i = r ∧ j = c
  · obtain ⟨hi, hj⟩ := hij
    subst hi; subst hj
    rw [setCell_self] at hne ⊢
    rw [isValid_iff]
    refine ⟨fun j' hj' => ?_, fun i' hi' => ?_, fun di dj hd => ?_⟩
    · by_cases hjc : j' = j
      · exact hjc
      · rw [setCell_other b i j i j' v (fun h => hjc h.2)] at hj'
        exact hvr j' hj'
    · by_cases hic : i' = i
      · exact hic
      · rw [setCell_other b i j i' j v (fun h => hic h.1)] at hi'
        exact hvc i' hi'
    · by_cases hbc : boxCell i di = i ∧ boxCell j dj = j
      · exact hbc
      · rw [setCell_other b i j _ _ v hbc] at hd
        exact hvb di dj hd
  · have hval_ij : setCell b r c v i j = b i j := setCell_other b r c i j v hij
    rw [hval_ij] at hne ⊢
    have hok_ij := hok i j hne
    rw [isValid_iff] at hok_ij
    obtain ⟨hr, hc, hb⟩ := hok_ij
    rw [isValid_iff]
    refine ⟨fun j' hj' => ?_, fun i' hi' => ?_, fun di dj hd => ?_⟩
    · by_cases hrc : i = r ∧ j' = c
      · rw [setCell, if_pos hrc] at hj'
        subst hj'
        have : j = c := hvr j (by rw [hrc.1])
        exact absurd ⟨hrc.1, this⟩ hij
      · rw [setCell, if_neg hrc] at hj'
        exact hr j' hj'
    · by_cases hrc : i' = r ∧ j = c
      · rw [setCell, if_pos hrc] at hi'
        subst hi'
        have : i = r := hvc i (by rw [hrc.2])
        exact absurd ⟨this, hrc.2⟩ hij
      · rw [setCell, if_neg hrc] at hi'
        exact hc i' hi'
    · by_cases hrc : boxCell i di = r ∧ boxCell j dj = c
      · rw [setCell, if_pos hrc] at hd
        subst hd
        have hdi : (boxCell i di).val / 3 = i.val / 3 := boxCell_div i di
        have hdj : (boxCell j dj).val / 3 = j.val / 3 := boxCell_div j dj
        have hri : r.val / 3 = i.val / 3 := by rw [← hrc.1]; exact hdi
        have hcj : c.val / 3 = j.val / 3 := by rw [← hrc.2]; exact hdj
        have h1 : boxCell r ⟨i.val % 3, Nat.mod_lt _ (by omega)⟩ = i :=
          boxCell_of_div_eq i r hri.symm
        have h2 : boxCell c ⟨j.val % 3, Nat.mod_lt _ (by omega)⟩ = j :=
          boxCell_of_div_eq j c hcj.symm
        have := hvb ⟨i.val % 3, Nat.mod_lt _ (by omega)⟩ ⟨j.val % 3, Nat.mod_lt _ (by omega)⟩
          (by rw [h1, h2])
        rw [h1, h2] at this
        exact absurd ⟨this.1, this.2⟩ hij
      · rw [setCell, if_neg hrc] at hd
        exact hb di dj hd

lemma okBoard_setZero (b : Board) (r c : Fin 9) (hok : okBoard b) :
    okBoard (setCell b r c 0) := by
  intro i j hne
  by_cases hij : i = r ∧ j = c
  · rw [setCell, if_pos hij] at hne
    exact absurd rfl hne
  · have hval_ij : setCell b r c 0 i j = b i j := setCell_other b r c i j 0 hij
    rw [hval_ij] at hne ⊢
    have hok_ij := hok i j hne
    rw [isValid_iff] at hok_ij
    obtain ⟨hr, hc, hb⟩ := hok_ij
    rw [isValid_iff]
    refine ⟨fun j' hj' => ?_, fun i' hi' => ?_, fun di dj hd => ?_⟩
    · by_cases hrc : i = r ∧ j' = c
      · rw [setCell, if_pos hrc] at hj'
        exact absurd hj'.symm hne
      · rw [setCell, if_neg hrc] at hj'
        exact hr j' hj'
    · by_cases hrc : i' = r ∧ j = c
      · rw [setCell, if_pos hrc] at hi'
        exact absurd hi'.symm hne
      · rw [setCell, if_neg hrc] at hi'
        exact hc i' hi'
    · by_cases hrc : boxCell i di = r ∧ boxCell j dj = c
      · rw [setCell, if_pos hrc] at hd
        exact absurd hd.symm hne
      · rw [setCell, if_neg hrc] at hd
        exact hb di dj hd

/-! ### From full conflict-free boards to Solved Grids and back -/

lemma count_one_of_nodup_nine (l : List Nat) (hlen : l.length = 9) (hnd : l.Nodup)
    (hmem : ∀ x ∈ l, 1 ≤ x ∧ x ≤ 9) : ∀ v : Fin 9, l.count (v.val + 1) = 1 := by
  intro v
  have hsub : l.toFinset ⊆ Finset.Icc 1 9 := by
    intro x hx
    rw [List.mem_toFinset] at hx
    have := hmem x hx
    rw [Finset.mem_Icc]
    omega
  have hcard : l.toFinset.card = 9 := by
    rw [List.toFinset_card_of_nodup hnd, hlen]
  have hIcc : (Finset.Icc 1 9 : Finset Nat).card = 9 := by
    rw [Nat.card_Icc]
  have heq : l.toFinset = Finset.Icc 1 9 :=
    Finset.eq_of_subset_of_card_le hsub (by omega)
  have hv : (v.val + 1) ∈ l := by
    rw [← List.mem_toFinset, heq, Finset.mem_Icc]
    have := v.isLt
    omega
  exact List.count_eq_one_of_mem hnd hv

lemma nodup_of_counts (l : List Nat) (hmem : ∀ x ∈ l, 1 ≤ x ∧ x ≤ 9)
    (hcnt : ∀ v : Fin 9, l.count (v.val + 1) = 1) : l.Nodup := by
  rw [List.nodup_iff_count_le_one]
  intro a
  by_cases ha : a ∈ l
  · have hr := hmem a ha
    have h9 : a - 1 < 9 := by omega
    have := hcnt ⟨a - 1, h9⟩
    have ha1 : a - 1 + 1 = a := by omega
    rw [ha1] at this
    omega
  · rw [List.count_eq_zero_of_not_mem ha]
    omega

lemma rowList_length (b : Board) (i : Fin 9) : (rowList b i).length = 9 := by
  simp [rowList]

lemma colList_length (b : Board) (j : Fin 9) : (colList b j).length = 9 := by
  simp [colList]

lemma boxList_length (b : Board) (q1 q2 : Fin 3) : (boxList b q1 q2).length = 9 := by
  simp only [boxList, List.length_map]
  decide

lemma mem_rowList (b : Board) (i : Fin 9) (x : Nat) :
    x ∈ rowList b i ↔ ∃ j, b i j = x := by
  simp [rowList]

lemma mem_colList (b : Board) (j : Fin 9) (x : Nat) :
    x ∈ colList b j ↔ ∃ i, b i j = x := by
  simp [colList]

lemma mem_boxList (b : Board) (q1 q2 : Fin 3) (x : Nat) :
    x ∈ boxList b q1 q2 ↔ ∃ d : Fin 3 × Fin 3, b (boxIdx q1 d.1) (boxIdx q2 d.2) = x := by
  unfold boxList allPairs3
  simp only [List.mem_map, List.mem_flatMap, List.mem_finRange, true_and]
  constructor
  · rintro ⟨d, _, hd⟩
    exact ⟨d, hd⟩
  · rintro ⟨d, hd⟩
    exact ⟨d, ⟨d.1, d.2, rfl⟩, hd⟩

lemma solved_isSolvedGrid_of_full_ok (b : Board)
    (hfull : fullBoard b) (hok : okBoard b) (hrange : inRange b) :
    isSolvedGrid b := by
  have hcell : ∀ i j, 1 ≤ b i j ∧ b i j ≤ 9 := by
    intro i j
    have h1 := hfull i j
    have h2 := hrange i j
    omega
  refine ⟨hcell, fun i => ?_, fun j => ?_, fun q1 q2 => ?_⟩
  · apply count_one_of_nodup_nine _ (rowList_length b i)
    · apply List.Nodup.map_on _ (List.nodup_finRange 9)
      intro x _ y _ hxy
      have hx := hok i x (hfull i x)
      rw [isValid_iff] at hx
      exact (hx.1 y hxy.symm).symm ▸ rfl
    · intro x hx
      rw [mem_rowList] at hx
      obtain ⟨j, hj⟩ := hx
      exact hj ▸ hcell i j
  · apply count_one_of_nodup_nine _ (colList_length b j)
    · apply List.Nodup.map_on _ (List.nodup_finRange 9)
      intro x _ y _ hxy
      have hx := hok x j (hfull x j)
      rw [isValid_iff] at hx
      exact (hx.2.1 y hxy.symm).symm ▸ rfl
    · intro x hx
      rw [mem_colList] at hx
      obtain ⟨i, hi⟩ := hx
      exact hi ▸ hcell i j
  · apply count_one_of_nodup_nine _ (boxList_length b q1 q2)
    · apply List.Nodup.map_on _ (by decide : allPairs3.Nodup)
      intro d _ e _ hde
      have hx := hok (boxIdx q1 d.1) (boxIdx q2 d.2) (hfull _ _)
      rw [isValid_iff] at hx
      have h1 : boxCell (boxIdx q1 d.1) e.1 = boxIdx q1 e.1 := by
        rw [boxCell_eq_boxIdx]
        congr 1
        apply Fin.ext
        simp only [boxOf, boxIdx]
        have := d.1.isLt
        have := e.1.isLt
        omega
      have h2 : boxCell (boxIdx q2 d.2) e.2 = boxIdx q2 e.2 := by
        rw [boxCell_eq_boxIdx]
        congr 1
        apply Fin.ext
        simp only [boxOf, boxIdx]
        have := d.2.isLt
        have := e.2.isLt
        omega
      have := hx.2.2 e.1 e.2 (by rw [h1, h2]; exact hde.symm)
      rw [h1, h2] at this
      have hd1 : e.1 = d.1 := boxIdx_inj this.1
      have hd2 : e.2 = d.2 := boxIdx_inj this.2
      exact Prod.ext hd1.symm hd2.symm
    · intro x hx
      rw [mem_boxList] at hx
      obtain ⟨d, hd⟩ := hx
      exact hd ▸ hcell _ _

lemma solved_cell_range (g : Board) (hg : isSolvedGrid g) (i j : Fin 9) :
    1 ≤ g i j ∧ g i j ≤ 9 := hg.1 i j

lemma solved_full (g : Board) (hg : isSolvedGrid g) : fullBoard g := by
  intro i j
  have := hg.1 i j
  omega

lemma solved_inRange (g : Board) (hg : isSolvedGrid g) : inRange g := by
  intro i j
  exact (hg.1 i j).2

lemma rowList_nodup_of_solved (g : Board) (hg : isSolvedGrid g) (i : Fin 9) :
    (rowList g i).Nodup := by
  apply nodup_of_counts _ _ (hg.2.1 i)
  intro x hx
  rw [mem_rowList] at hx
  obtain ⟨j, hj⟩ := hx
  exact hj ▸ hg.1 i j

lemma colList_nodup_of_solved (g : Board) (hg : isSolvedGrid g) (j : Fin 9) :
    (colList g j).Nodup := by
  apply nodup_of_counts _ _ (hg.2.2.1 j)
  intro x hx
  rw [mem_colList] at hx
  obtain ⟨i, hi⟩ := hx
  exact hi ▸ hg.1 i j

lemma boxList_nodup_of_solved (g : Board) (hg : isSolvedGrid g) (q1 q2 : Fin 3) :
    (boxList g q1 q2).Nodup := by
  apply nodup_of_counts _ _ (hg.2.2.2 q1 q2)
  intro x hx
  rw [mem_boxList] at hx
  obtain ⟨d, hd⟩ := hx
  exact hd ▸ hg.1 _ _

lemma solved_row_inj (g : Board) (hg : isSolvedGrid g) {i j j' : Fin 9}
    (h : g i j = g i j') : j = j' := by
  have hnd := rowList_nodup_of_solved g hg i
  exact List.inj_on_of_nodup_map hnd (List.mem_finRange j) (List.mem_finRange j') h

lemma solved_col_inj (g : Board) (hg : isSolvedGrid g) {i i' j : Fin 9}
    (h : g i j = g i' j) : i = i' := by
  have hnd := colList_nodup_of_solved g hg j
  exact List.inj_on_of_nodup_map hnd (List.mem_finRange i) (List.mem_finRange i') h

lemma solved_box_inj (g : Board) (hg : isSolvedGrid g) {q1 q2 : Fin 3}
    {d e : Fin 3 × Fin 3}
    (h : g (boxIdx q1 d.1) (boxIdx q2 d.2) = g (boxIdx q1 e.1) (boxIdx q2 e.2)) :
    d = e := by
  have hnd := boxList_nodup_of_solved g hg q1 q2
  exact List.inj_on_of_nodup_map hnd
    (by unfold allPairs3; simp only [List.mem_flatMap, List.mem_map, List.mem_finRange,
      true_and]; exact ⟨d.1, d.2, rfl⟩)
    (by unfold allPairs3; simp only [List.mem_flatMap, List.mem_map, List.mem_finRange,
      true_and]; exact ⟨e.1, e.2, rfl⟩) h

lemma solved_okBoard (g : Board) (hg : isSolvedGrid g) : okBoard g := by
  intro i j _
  rw [isValid_iff]
  refine ⟨fun j' hj' => solved_row_inj g hg hj'.symm |>.symm,
    fun i' hi' => solved_col_inj g hg hi'.symm |>.symm, fun di dj hd => ?_⟩
  have h1 : boxCell i di = boxIdx (boxOf i) di := boxCell_eq_boxIdx i di
  have h2 : boxCell j dj = boxIdx (boxOf j) dj := boxCell_eq_boxIdx j dj
  have hii : i = boxIdx (boxOf i) (offOf i) := (boxIdx_boxOf_offOf i).symm
  have hjj : j = boxIdx (boxOf j) (offOf j) := (boxIdx_boxOf_offOf j).symm
  have : ((di, dj) : Fin 3 × Fin 3) = (offOf i, offOf j) := by
    apply @solved_box_inj g hg (boxOf i) (boxOf j) (di, dj) (offOf i, offOf j)
    rw [h1, h2] at hd
    rw [hd]
    rw [← hii, ← hjj]
  have hdi : di = offOf i := congrArg Prod.fst this
  have hdj : dj = offOf j := congrArg Prod.snd this
  constructor
  · rw [h1, hdi, ← hii]
  · rw [h2, hdj, ← hjj]

lemma valid_of_solved_extension (g b : Board) (r c : Fin 9)
    (hg : isSolvedGrid g) (hext : extendsB b g) :
    isValidPlacement b (g r c) r c = true := by
  rw [isValid_iff]
  have hval : 1 ≤ g r c := (hg.1 r c).1
  refine ⟨fun j hj => ?_, fun i hi => ?_, fun di dj hd => ?_⟩
  · have hne : b r j ≠ 0 := by omega
    have := hext r j hne
    exact solved_row_inj g hg (by rw [this, hj])
  · have hne : b i c ≠ 0 := by omega
    have := hext i c hne
    exact solved_col_inj g hg (by rw [this, hi])
  · have hne : b (boxCell r di) (boxCell c dj) ≠ 0 := by omega
    have hgd := hext _ _ hne
    have h1 : boxCell r di = boxIdx (boxOf r) di := boxCell_eq_boxIdx r di
    have h2 : boxCell c dj = boxIdx (boxOf c) dj := boxCell_eq_boxIdx c dj
    have hrr : r = boxIdx (boxOf r) (offOf r) := (boxIdx_boxOf_offOf r).symm
    have hcc : c = boxIdx (boxOf c) (offOf c) := (boxIdx_boxOf_offOf c).symm
    have : ((di, dj) : Fin 3 × Fin 3) = (offOf r, offOf c) := by
      apply @solved_box_inj g hg (boxOf r) (boxOf c) (di, dj) (offOf r, offOf c)
      rw [← h1, ← h2, hgd, hd]
      rw [← hrr, ← hcc]
    have hdi : di = offOf r := congrArg Prod.fst this
    have hdj : dj = offOf c := congrArg Prod.snd this
    constructor
    · rw [hdi, boxCell_eq_boxIdx, ← hrr]
    · rw [hdj, boxCell_eq_boxIdx, ← hcc]

/-! ### Counting completions -/

lemma mem_completions (b : Board) (f : Fin 9 → Fin 9 → Fin 9) :
    f ∈ completions b ↔ isSolvedGrid (toBoard f) ∧ extendsB b (toBoard f) := by
  unfold completions
  simp

lemma numSolutions_full_solved (b : Board) (hfull : fullBoard b) (hs : isSolvedGrid b) :
    numSolutions b = 1 := by
  have hrange := hs.1
  have hf0lt : ∀ i j, b i j - 1 < 9 := by
    intro i j
    have := hrange i j
    omega
  set f0 : Fin 9 → Fin 9 → Fin 9 := fun i j => ⟨b i j - 1, hf0lt i j⟩ with hf0
  have htb : toBoard f0 = b := by
    funext i j
    simp only [toBoard, hf0]
    have := hrange i j
    omega
  have hcomp : completions b = {f0} := by
    apply Finset.ext
    intro f
    rw [mem_completions, Finset.mem_singleton]
    constructor
    · rintro ⟨_, hext⟩
      funext i j
      have hvv : toBoard f i j = b i j := hext i j (hfull i j)
      apply Fin.ext
      simp only [toBoard] at hvv
      simp only [hf0]
      omega
    · rintro rfl
      rw [htb]
      exact ⟨hs, fun i j _ => rfl⟩
  unfold numSolutions
  rw [hcomp, Finset.card_singleton]

lemma extendsB_setCell_iff (b g : Board) (r c : Fin 9) (num : Nat)
    (h0 : b r c = 0) (h1 : 1 ≤ num) :
    extendsB (setCell b r c num) g ↔ extendsB b g ∧ g r c = num := by
  constructor
  · intro h
    constructor
    · intro i j hij
      have hne : ¬(i = r ∧ j = c) := by
        rintro ⟨rfl, rfl⟩
        exact hij h0
      have := h i j (by rw [setCell_other b r c i j num hne]; exact hij)
      rwa [setCell_other b r c i j num hne] at this
    · have := h r c (by rw [setCell_self]; omega)
      rwa [setCell_self] at this
  · rintro ⟨hext, hrc⟩
    intro i j hij
    by_cases hne : i = r ∧ j = c
    · obtain ⟨rfl, rfl⟩ := hne
      rw [setCell_self]
      exact hrc
    · rw [setCell_other b r c i j num hne] at hij ⊢
      exact hext i j hij

lemma completions_setCell (b : Board) (r c : Fin 9) (num : Nat)
    (h0 : b r c = 0) (h1 : 1 ≤ num) :
    completions (setCell b r c num) =
      (completions b).filter (fun f => toBoard f r c = num) := by
  apply Finset.ext
  intro f
  rw [Finset.mem_filter, mem_completions, mem_completions,
    extendsB_setCell_iff b (toBoard f) r c num h0 h1]
  tauto

lemma numSolutions_eq_zero_of_invalid (b : Board) (r c : Fin 9) (num : Nat)
    (h0 : b r c = 0) (h1 : 1 ≤ num)
    (hinv : isValidPlacement b num r c = false) :
    numSolutions (setCell b r c num) = 0 := by
  unfold numSolutions
  rw [Finset.card_eq_zero, Finset.eq_empty_iff_forall_not_mem]
  intro f hf
  rw [mem_completions, extendsB_setCell_iff b (toBoard f) r c num h0 h1] at hf
  obtain ⟨hs, hext, hrc⟩ := hf
  have hv := valid_of_solved_extension (toBoard f) b r c hs hext
  rw [hrc] at hv
  rw [hv] at hinv
  exact absurd hinv (by decide)

lemma mem_list19 (v : Nat) (h1 : 1 ≤ v) (h9 : v ≤ 9) :
    v ∈ ([1, 2, 3, 4, 5, 6, 7, 8, 9] : List Nat) := by
  have hc : v = 1 ∨ v = 2 ∨ v = 3 ∨ v = 4 ∨ v = 5 ∨ v = 6 ∨ v = 7 ∨ v = 8 ∨ v = 9 := by
    omega
  rcases hc with rfl | rfl | rfl | rfl | rfl | rfl | rfl | rfl | rfl <;> simp

lemma card_filter_mem (b : Board) (r c : Fin 9) (h0 : b r c = 0) :
    ∀ nums : List Nat, nums.Nodup → (∀ num ∈ nums, 1 ≤ num) →
      ((completions b).filter (fun f => toBoard f r c ∈ nums)).card =
        (nums.map (fun num => numSolutions (setCell b r c num))).sum := by
  intro nums
  induction nums with
  | nil =>
    intro _ _
    simp
  | cons num rest ih =>
    intro hnd hpos
    have hnotin : num ∉ rest := (List.nodup_cons.mp hnd).1
    have hdisj : Disjoint ((completions b).filter (fun f => toBoard f r c = num))
        ((completions b).filter (fun f => toBoard f r c ∈ rest)) := by
      rw [Finset.disjoint_left]
      intro f hf1 hf2
      rw [Finset.mem_filter] at hf1 hf2
      rw [hf1.2] at hf2
      exact hnotin hf2.2
    have hsplit : (completions b).filter (fun f => toBoard f r c ∈ num :: rest) =
        ((completions b).filter (fun f => toBoard f r c = num)) ∪
        ((completions b).filter (fun f => toBoard f r c ∈ rest)) := by
      rw [← Finset.filter_or]
      apply Finset.filter_congr
      intro f _
      simp [List.mem_cons]
    rw [hsplit, Finset.card_union_of_disjoint hdisj,
      ← completions_setCell b r c num h0 (hpos num (by simp)),
      List.map_cons, List.sum_cons,
      ih (List.nodup_cons.mp hnd).2 (fun x hx => hpos x (by simp [hx]))]
    rfl

lemma numSolutions_decompose (b : Board) (r c : Fin 9) (h0 : b r c = 0) :
    numSolutions b =
      (([1, 2, 3, 4, 5, 6, 7, 8, 9] : List Nat).map
        (fun num => numSolutions (setCell b r c num))).sum := by
  rw [← card_filter_mem b r c h0 [1, 2, 3, 4, 5, 6, 7, 8, 9] (by decide) (by decide)]
  unfold numSolutions
  apply congrArg Finset.card
  symm
  apply Finset.filter_true_of_mem
  intro f hf
  rw [mem_completions] at hf
  exact mem_list19 _ (hf.1.1 r c).1 (hf.1.1 r c).2

/-! ### Behavior of the capped solution counter -/

lemma csTry_total (next : Board → Nat → Option (Nat × Board)) (b : Board) (r c : Fin 9) :
    ∀ nums cnt,
      (∀ num cnt', num ∈ nums → isValidPlacement b num r c = true →
        ∃ res, next (setCell b r c num) cnt' = some res) →
      ∃ res, csTry next b r c nums cnt = some res := by
  intro nums
  induction nums with
  | nil =>
    intro cnt _
    exact ⟨(cnt, b), rfl⟩
  | cons num rest ih =>
    intro cnt hnext
    by_cases hval : isValidPlacement b num r c = true
    · obtain ⟨res, hres⟩ := hnext num cnt (by simp) hval
      obtain ⟨cnt', b'⟩ := res
      by_cases hcnt : 1 < cnt'
      · exact ⟨(cnt', b'), by simp [csTry, hval, hres, hcnt]⟩
      · obtain ⟨res2, h2⟩ := ih cnt' (fun n k hn hv => hnext n k (by simp [hn]) hv)
        exact ⟨res2, by simp [csTry, hval, hres, hcnt, h2]⟩
    · have hval' : isValidPlacement b num r c = false := by simpa using hval
      obtain ⟨res2, h2⟩ := ih cnt (fun n k hn hv => hnext n k (by simp [hn]) hv)
      exact ⟨res2, by simp [csTry, hval', h2]⟩

lemma csSolve_total : ∀ fuel (b : Board) cnt, emptyCount b < fuel →
    ∃ res, csSolve fuel b cnt = some res := by
  intro fuel
  induction fuel with
  | zero =>
    intro b cnt h
    exact absurd h (by omega)
  | succ fuel ih =>
    intro b cnt h
    cases hfind : findEmptyCell b with
    | none => exact ⟨(cnt + 1, b), by simp [csSolve, hfind]⟩
    | some rc =>
      obtain ⟨r, c⟩ := rc
      have h0 : b r c = 0 := findEmptyCell_some b r c hfind
      have hnext : ∀ num cnt', num ∈ ([1, 2, 3, 4, 5, 6, 7, 8, 9] : List Nat) →
          isValidPlacement b num r c = true →
          ∃ res, csSolve fuel (setCell b r c num) cnt' = some res := by
        intro num cnt' hmem hval
        apply ih
        have hnum : num ≠ 0 := by
          intro hz
          subst hz
          simp at hmem
        have := emptyCount_setCell_lt b r c num h0 hnum
        omega
      obtain ⟨res, hres⟩ := csTry_total (csSolve fuel) b r c _ cnt hnext
      refine ⟨res, ?_⟩
      simpa [csSolve, hfind] using hres

lemma csTry_restore (next : Board → Nat → Option (Nat × Board)) (b : Board) (r c : Fin 9) :
    ∀ nums cnt res, csTry next b r c nums cnt = some res → res.1 ≤ 1 → res.2 = b := by
  intro nums
  induction nums with
  | nil =>
    intro cnt res h _
    simp only [csTry] at h
    cases h
    rfl
  | cons num rest ih =>
    intro cnt res h hle
    by_cases hval : isValidPlacement b num r c = true
    · cases hn : next (setCell b r c num) cnt with
      | none => simp [csTry, hval, hn] at h
      | some res1 =>
        obtain ⟨cnt', b'⟩ := res1
        by_cases hcnt : 1 < cnt'
        · simp [csTry, hval, hn, hcnt] at h
          obtain ⟨h1, _⟩ := h
          omega
        · simp only [csTry, hval, if_true, hn, if_neg hcnt] at h
          exact ih cnt' res h hle
    · have hval' : isValidPlacement b num r c = false := by simpa using hval
      simp only [csTry, hval', Bool.false_eq_true, if_false] at h
      exact ih cnt res h hle

lemma csSolve_restore (fuel : Nat) (b : Board) (cnt : Nat) (res : Nat × Board)
    (h : csSolve fuel b cnt = some res) (hle : res.1 ≤ 1) : res.2 = b := by
  cases fuel with
  | zero => simp [csSolve] at h
  | succ fuel =>
    cases hfind : findEmptyCell b with
    | none =>
      simp only [csSolve, hfind] at h
      cases h
      rfl
    | some rc =>
      obtain ⟨r, c⟩ := rc
      simp only [csSolve, hfind] at h
      exact csTry_restore (csSolve fuel) b r c _ cnt res h hle

lemma csTry_master (next : Board → Nat → Option (Nat × Board)) (b : Board) (r c : Fin 9)
    (h0 : b r c = 0) :
    ∀ nums : List Nat, (∀ num ∈ nums, 1 ≤ num) →
      (∀ num cnt', num ∈ nums → isValidPlacement b num r c = true → cnt' ≤ 1 →
        ∃ b', next (setCell b r c num) cnt' =
          some (min (cnt' + numSolutions (setCell b r c num)) 2, b')) →
      ∀ cnt, cnt ≤ 1 →
        ∃ b', csTry next b r c nums cnt =
          some (min (cnt + (nums.map (fun num => numSolutions (setCell b r c num))).sum) 2,
            b') := by
  intro nums
  induction nums with
  | nil =>
    intro _ _ cnt hcnt
    refine ⟨b, ?_⟩
    rw [List.map_nil, List.sum_nil, show min (cnt + 0) 2 = cnt from by omega]
    rfl
  | cons num rest ih =>
    intro hpos hrec cnt hcnt
    simp only [List.map_cons, List.sum_cons]
    by_cases hval : isValidPlacement b num r c = true
    · obtain ⟨b1, hb1⟩ := hrec num cnt (by simp) hval hcnt
      by_cases hbig : 2 ≤ cnt + numSolutions (setCell b r c num)
      · refine ⟨b1, ?_⟩
        rw [show min (cnt + numSolutions (setCell b r c num)) 2 = 2 from by omega] at hb1
        rw [show min (cnt + (numSolutions (setCell b r c num) +
          (rest.map (fun num => numSolutions (setCell b r c num))).sum)) 2 = 2 from by omega]
        simp [csTry, hval, hb1]
      · rw [show min (cnt + numSolutions (setCell b r c num)) 2 =
          cnt + numSolutions (setCell b r c num) from by omega] at hb1
        obtain ⟨b2, hb2⟩ := ih (fun x hx => hpos x (by simp [hx]))
          (fun n k hn hv hk => hrec n k (by simp [hn]) hv hk)
          (cnt + numSolutions (setCell b r c num)) (by omega)
        refine ⟨b2, ?_⟩
        rw [show cnt + (numSolutions (setCell b r c num) +
            (rest.map (fun num => numSolutions (setCell b r c num))).sum) =
            cnt + numSolutions (setCell b r c num) +
            (rest.map (fun num => numSolutions (setCell b r c num))).sum from by omega]
        have hnot : ¬(1 < cnt + numSolutions (setCell b r c num)) := by omega
        simp [csTry, hval, hb1, hnot, hb2]
    · have hval' : isValidPlacement b num r c = false := by simpa using hval
      have hzero : numSolutions (setCell b r c num) = 0 :=
        numSolutions_eq_zero_of_invalid b r c num h0 (hpos num (by simp)) hval'
      obtain ⟨b2, hb2⟩ := ih (fun x hx => hpos x (by simp [hx]))
        (fun n k hn hv hk => hrec n k (by simp [hn]) hv hk) cnt hcnt
      refine ⟨b2, ?_⟩
      rw [hzero, Nat.zero_add]
      simp [csTry, hval', hb2]

lemma csSolve_master : ∀ fuel (b : Board) cnt, emptyCount b < fuel → okBoard b →
    inRange b → cnt ≤ 1 →
    ∃ b', csSolve fuel b cnt = some (min (cnt + numSolutions b) 2, b') := by
  intro fuel
  induction fuel with
  | zero =>
    intro b cnt h _ _ _
    exact absurd h (by omega)
  | succ fuel ih =>
    intro b cnt hfuel hok hrange hcnt
    cases hfind : findEmptyCell b with
    | none =>
      have hfull : fullBoard b := (findEmptyCell_eq_none_iff b).mp hfind
      have hsolved : isSolvedGrid b := solved_isSolvedGrid_of_full_ok b hfull hok hrange
      have h1 : numSolutions b = 1 := numSolutions_full_solved b hfull hsolved
      refine ⟨b, ?_⟩
      rw [h1, show min (cnt + 1) 2 = cnt + 1 from by omega]
      simp [csSolve, hfind]
    | some rc =>
      obtain ⟨r, c⟩ := rc
      have h0 : b r c = 0 := findEmptyCell_some b r c hfind
      have hrec : ∀ num cnt', num ∈ ([1, 2, 3, 4, 5, 6, 7, 8, 9] : List Nat) →
          isValidPlacement b num r c = true → cnt' ≤ 1 →
          ∃ b', csSolve fuel (setCell b r c num) cnt' =
            some (min (cnt' + numSolutions (setCell b r c num)) 2, b') := by
        intro num cnt' hmem hval hcnt'
        have hn1 : 1 ≤ num := by
          have hh : ∀ x ∈ ([1, 2, 3, 4, 5, 6, 7, 8, 9] : List Nat), 1 ≤ x := by decide
          exact hh num hmem
        have hn9 : num ≤ 9 := by
          have hh : ∀ x ∈ ([1, 2, 3, 4, 5, 6, 7, 8, 9] : List Nat), x ≤ 9 := by decide
          exact hh num hmem
        apply ih
        · have := emptyCount_setCell_lt b r c num h0 (by omega)
          omega
        · exact okBoard_setCell b r c num hok h0 hval hn1
        · exact inRange_setCell b r c num hrange hn9
        · exact hcnt'
      have hposl : ∀ num ∈ ([1, 2, 3, 4, 5, 6, 7, 8, 9] : List Nat), 1 ≤ num := by decide
      obtain ⟨b', hb'⟩ := csTry_master (csSolve fuel) b r c h0 _ hposl hrec cnt hcnt
      refine ⟨b', ?_⟩
      rw [numSolutions_decompose b r c h0]
      have hstep : csSolve (fuel + 1) b cnt = csTry (csSolve fuel) b r c
          [1, 2, 3, 4, 5, 6, 7, 8, 9] cnt := by
        simp [csSolve, hfind]
      rw [hstep]
      exact hb'

lemma countSolutions_eq_min (b : Board) (hok : okBoard b) (hrange : inRange b) :
    countSolutions b = min (numSolutions b) 2 := by
  obtain ⟨b', hb'⟩ := csSolve_master 82 b 0
    (by have := emptyCount_le_81 b; omega) hok hrange (by omega)
  unfold countSolutions
  rw [hb', Nat.zero_add]

/-! ### The carving loop -/

lemma carve_invariant (g : Board) (holes : Nat) :
    ∀ (order : List (Fin 9 × Fin 9)) (p : Board) (removed : Nat),
      okBoard p → inRange p → (∀ i j, p i j ≠ 0 → p i j = g i j) →
      numSolutions p = 1 → emptyCount p ≤ removed → removed ≤ holes →
      okBoard (carve holes order p removed) ∧ inRange (carve holes order p removed) ∧
      (∀ i j, carve holes order p removed i j ≠ 0 →
        carve holes order p removed i j = g i j) ∧
      numSolutions (carve holes order p removed) = 1 ∧
      emptyCount (carve holes order p removed) ≤ holes := by
  intro order
  induction order with
  | nil =>
    intro p removed hok hrange hagree hnum hcnt hrh
    simp only [carve]
    exact ⟨hok, hrange, hagree, hnum, le_trans hcnt hrh⟩
  | cons pos rest ih =>
    intro p removed hok hrange hagree hnum hcnt hrh
    by_cases hstop : holes ≤ removed
    · simp only [carve, if_pos hstop]
      exact ⟨hok, hrange, hagree, hnum, le_trans hcnt hrh⟩
    · simp only [carve, if_neg hstop]
      by_cases hone : countSolutions (setCell p pos.1 pos.2 0) = 1
      · rw [if_pos hone]
        have hok' : okBoard (setCell p pos.1 pos.2 0) := okBoard_setZero p pos.1 pos.2 hok
        have hrange' : inRange (setCell p pos.1 pos.2 0) :=
          inRange_setCell p pos.1 pos.2 0 hrange (by omega)
        have hagree' : ∀ i j, setCell p pos.1 pos.2 0 i j ≠ 0 →
            setCell p pos.1 pos.2 0 i j = g i j := by
          intro i j hne
          by_cases hij : i = pos.1 ∧ j = pos.2
          · rw [setCell, if_pos hij] at hne
            exact absurd rfl hne
          · rw [setCell_other p pos.1 pos.2 i j 0 hij] at hne ⊢
            exact hagree i j hne
        have hnum' : numSolutions (setCell p pos.1 pos.2 0) = 1 := by
          rw [countSolutions_eq_min _ hok' hrange'] at hone
          omega
        apply ih _ _ hok' hrange' hagree' hnum'
        · have := emptyCount_setZero_le p pos.1 pos.2
          omega
        · omega
      · rw [if_neg hone]
        apply ih _ _ hok hrange hagree hnum hcnt
        omega

lemma createPuzzle_spec (g : Board) (hg : isSolvedGrid g) (holes : Nat)
    (order : List (Fin 9 × Fin 9)) :
    countSolutions (createPuzzle g holes order) = 1 ∧
    (∀ i j, createPuzzle g holes order i j ≠ 0 →
      createPuzzle g holes order i j = g i j) ∧
    emptyCount (createPuzzle g holes order) ≤ holes := by
  have hfull := solved_full g hg
  have h := carve_invariant g holes order g 0 (solved_okBoard g hg)
    (solved_inRange g hg) (fun i j _ => rfl)
    (numSolutions_full_solved g hfull hg)
    (by have := (emptyCount_eq_zero_iff g).mpr hfull; omega)
    (Nat.zero_le holes)
  obtain ⟨hok, hrange, hagree, hnum, hempty⟩ := h
  refine ⟨?_, hagree, hempty⟩
  rw [show createPuzzle g holes order = carve holes order g 0 from rfl,
    countSolutions_eq_min _ hok hrange, hnum]
  decide

/-! ### The solved-grid generator -/

lemma genTry_total (next : Board → Nat → Option (Board × Bool × Nat)) (b : Board)
    (r c : Fin 9) :
    ∀ nums k,
      (∀ num k', num ∈ nums → isValidPlacement b num r c = true →
        ∃ res, next (setCell b r c num) k' = some res) →
      ∃ res, genTry next b r c nums k = some res := by
  intro nums
  induction nums with
  | nil =>
    intro k _
    exact ⟨(b, false, k), rfl⟩
  | cons num rest ih =>
    intro k hnext
    by_cases hval : isValidPlacement b num r c = true
    · obtain ⟨res, hres⟩ := hnext num k (by simp) hval
      obtain ⟨b', flag, k'⟩ := res
      cases flag with
      | true => exact ⟨(b', true, k'), by simp [genTry, hval, hres]⟩
      | false =>
        obtain ⟨res2, h2⟩ := ih k' (fun n kk hn hv => hnext n kk (by simp [hn]) hv)
        exact ⟨res2, by simp [genTry, hval, hres, h2]⟩
    · have hval' : isValidPlacement b num r c = false := by simpa using hval
      obtain ⟨res2, h2⟩ := ih k (fun n kk hn hv => hnext n kk (by simp [hn]) hv)
      exact ⟨res2, by simp [genTry, hval', h2]⟩

lemma genSolve_total (streams : Nat → List Nat)
    (hpos : ∀ k num, num ∈ streams k → 1 ≤ num) :
    ∀ fuel (b : Board) k, emptyCount b < fuel →
      ∃ res, genSolve streams fuel b k = some res := by
  intro fuel
  induction fuel with
  | zero =>
    intro b k h
    exact absurd h (by omega)
  | succ fuel ih =>
    intro b k h
    cases hfind : findEmptyCell b with
    | none => exact ⟨(b, true, k), by simp [genSolve, hfind]⟩
    | some rc =>
      obtain ⟨r, c⟩ := rc
      have h0 := findEmptyCell_some b r c hfind
      have hnext : ∀ num k', num ∈ streams k → isValidPlacement b num r c = true →
          ∃ res, genSolve streams fuel (setCell b r c num) k' = some res := by
        intro num k' hmem _
        apply ih
        have hnum : num ≠ 0 := by
          have := hpos k num hmem
          omega
        have := emptyCount_setCell_lt b r c num h0 hnum
        omega
      obtain ⟨res, hres⟩ := genTry_total (genSolve streams fuel) b r c (streams k) (k + 1) hnext
      refine ⟨res, ?_⟩
      simp only [genSolve, hfind]
      exact hres

lemma genTry_sound (next : Board → Nat → Option (Board × Bool × Nat)) (b : Board)
    (r c : Fin 9) :
    ∀ nums k b' k', genTry next b r c nums k = some (b', true, k') →
      ∃ num k1, num ∈ nums ∧ isValidPlacement b num r c = true ∧
        next (setCell b r c num) k1 = some (b', true, k') := by
  intro nums
  induction nums with
  | nil =>
    intro k b' k' h
    simp [genTry] at h
  | cons num rest ih =>
    intro k b' k' h
    by_cases hval : isValidPlacement b num r c = true
    · cases hn : next (setCell b r c num) k with
      | none => simp [genTry, hval, hn] at h
      | some res =>
        obtain ⟨b1, flag, k1⟩ := res
        cases flag with
        | true =>
          simp only [genTry, hval, if_true, hn] at h
          refine ⟨num, k, by simp, hval, ?_⟩
          rw [hn, h]
        | false =>
          simp only [genTry, hval, if_true, hn] at h
          obtain ⟨num0, k2, hmem, hv, hnx⟩ := ih k1 b' k' h
          exact ⟨num0, k2, by simp [hmem], hv, hnx⟩
    · have hval' : isValidPlacement b num r c = false := by simpa using hval
      simp only [genTry, hval', Bool.false_eq_true, if_false] at h
      obtain ⟨num0, k2, hmem, hv, hnx⟩ := ih k b' k' h
      exact ⟨num0, k2, by simp [hmem], hv, hnx⟩

lemma genSolve_sound (streams : Nat → List Nat)
    (hrange9 : ∀ k num, num ∈ streams k → 1 ≤ num ∧ num ≤ 9) :
    ∀ fuel (b : Board) k b' k', okBoard b → inRange b →
      genSolve streams fuel b k = some (b', true, k') → isSolvedGrid b' := by
  intro fuel
  induction fuel with
  | zero =>
    intro b k b' k' _ _ h
    simp [genSolve] at h
  | succ fuel ih =>
    intro b k b' k' hok hrange h
    cases hfind : findEmptyCell b with
    | none =>
      simp only [genSolve, hfind, Option.some.injEq] at h
      have hb : b' = b := by
        have := congrArg Prod.fst h
        exact this.symm
      subst hb
      exact solved_isSolvedGrid_of_full_ok b'
        ((findEmptyCell_eq_none_iff b').mp hfind) hok hrange
    | some rc =>
      obtain ⟨r, c⟩ := rc
      have h0 := findEmptyCell_some b r c hfind
      simp only [genSolve, hfind] at h
      obtain ⟨num, k1, hmem, hval, hnx⟩ :=
        genTry_sound (genSolve streams fuel) b r c (streams k) (k + 1) b' k' h
      have hr := hrange9 k num hmem
      exact ih (setCell b r c num) k1 b' k'
        (okBoard_setCell b r c num hok h0 hval hr.1)
        (inRange_setCell b r c num hrange hr.2) hnx

lemma genTry_complete (next : Board → Nat → Option (Board × Bool × Nat)) (b : Board)
    (r c : Fin 9) (num0 : Nat)
    (hsucc : ∀ k', ∃ b' k'', next (setCell b r c num0) k' = some (b', true, k''))
    (hval0 : isValidPlacement b num0 r c = true) :
    ∀ nums k, num0 ∈ nums →
      (∀ num k', num ∈ nums → isValidPlacement b num r c = true →
        ∃ res, next (setCell b r c num) k' = some res) →
      ∃ b' k'', genTry next b r c nums k = some (b', true, k'') := by
  intro nums
  induction nums with
  | nil =>
    intro k hmem _
    simp at hmem
  | cons num rest ih =>
    intro k hmem htot
    by_cases hval : isValidPlacement b num r c = true
    · obtain ⟨res, hres⟩ := htot num k (by simp) hval
      obtain ⟨b1, flag, k1⟩ := res
      cases flag with
      | true => exact ⟨b1, k1, by simp [genTry, hval, hres]⟩
      | false =>
        have hne : num ≠ num0 := by
          intro he
          subst he
          obtain ⟨b2, k2, h2⟩ := hsucc k
          rw [hres] at h2
          simp at h2
        have hmem' : num0 ∈ rest := by
          rcases List.mem_cons.mp hmem with he | hm
          · exact absurd he.symm hne
          · exact hm
        obtain ⟨b', k'', hgt⟩ := ih k1 hmem' (fun n kk hn hv => htot n kk (by simp [hn]) hv)
        exact ⟨b', k'', by simp [genTry, hval, hres, hgt]⟩
    · have hne : num ≠ num0 := fun he => hval (he ▸ hval0)
      have hval' : isValidPlacement b num r c = false := by simpa using hval
      have hmem' : num0 ∈ rest := by
        rcases List.mem_cons.mp hmem with he | hm
        · exact absurd he.symm hne
        · exact hm
      obtain ⟨b', k'', hgt⟩ := ih k hmem' (fun n kk hn hv => htot n kk (by simp [hn]) hv)
      exact ⟨b', k'', by simp [genTry, hval', hgt]⟩

lemma genSolve_complete (streams : Nat → List Nat) (g : Board) (hg : isSolvedGrid g)
    (hmem9 : ∀ k num, 1 ≤ num → num ≤ 9 → num ∈ streams k)
    (hpos : ∀ k num, num ∈ streams k → 1 ≤ num) :
    ∀ fuel (b : Board) k, emptyCount b < fuel → extendsB b g →
      ∃ b' k', genSolve streams fuel b k = some (b', true, k') := by
  intro fuel
  induction fuel with
  | zero =>
    intro b k h _
    exact absurd h (by omega)
  | succ fuel ih =>
    intro b k h hext
    cases hfind : findEmptyCell b with
    | none => exact ⟨b, k, by simp [genSolve, hfind]⟩
    | some rc =>
      obtain ⟨r, c⟩ := rc
      have h0 := findEmptyCell_some b r c hfind
      have hgrc := hg.1 r c
      have hval0 : isValidPlacement b (g r c) r c = true :=
        valid_of_solved_extension g b r c hg hext
      have hext' : extendsB (setCell b r c (g r c)) g := by
        intro i j hij
        by_cases hijc : i = r ∧ j = c
        · obtain ⟨rfl, rfl⟩ := hijc
          rw [setCell_self]
        · rw [setCell_other _ _ _ _ _ _ hijc] at hij ⊢
          exact hext i j hij
      have hempty' : emptyCount (setCell b r c (g r c)) < fuel := by
        have := emptyCount_setCell_lt b r c (g r c) h0 (by omega)
        omega
      have hsucc : ∀ k', ∃ b' k'',
          genSolve streams fuel (setCell b r c (g r c)) k' = some (b', true, k'') :=
        fun k' => ih (setCell b r c (g r c)) k' hempty' hext'
      have htot : ∀ num k', num ∈ streams k → isValidPlacement b num r c = true →
          ∃ res, genSolve streams fuel (setCell b r c num) k' = some res := by
        intro num k' hm _
        apply genSolve_total streams hpos
        have hnum := hpos k num hm
        have := emptyCount_setCell_lt b r c num h0 (by omega)
        omega
      obtain ⟨b', k'', hgt⟩ := genTry_complete (genSolve streams fuel) b r c (g r c)
        hsucc hval0 (streams k) (k + 1) (hmem9 k (g r c) hgrc.1 hgrc.2) htot
      refine ⟨b', k'', ?_⟩
      simp only [genSolve, hfind]
      exact hgt

/-! ### The game session -/

/-- The global game state of the source: solvedBoard, initialPuzzle,
puzzleBoard and the gameActive flag. -/
structure GameState where
  solvedBoard : Board
  initialPuzzle : Board
  puzzleBoard : Board
  gameActive : Bool

/-- The test of checkWinCondition: the loop returns early on a cell that is
empty or differs from the solved board; the board wins when no such cell
exists. -/
def checkWinB (s : GameState) : Bool :=
  allPositions.all fun p =>
    !(s.puzzleBoard p.1 p.2 == 0 || !(s.puzzleBoard p.1 p.2 == s.solvedBoard p.1 p.2))

/-- checkWinCondition from the source: on a winning board the game is
deactivated, otherwise the state is unchanged. -/
def checkWinCondition (s : GameState) : GameState :=
  if checkWinB s then { s with gameActive := false } else s

/-- The keydown handler and the number-pad handler of the source: a move
writes v at the chosen cell, unless the game is inactive or the cell is a
given of the initial puzzle; afterwards the win condition runs. -/
def applyMove (s : GameState) (r c : Fin 9) (v : Nat) : GameState :=
  if s.gameActive = false then s
  else if s.initialPuzzle r c ≠ 0 then s
  else checkWinCondition { s with puzzleBoard := setCell s.puzzleBoard r c v }

/-- A sequence of moves applied in order. -/
def applyMoves (s : GameState) (moves : List (Fin 9 × Fin 9 × Nat)) : GameState :=
  moves.foldl (fun st m => applyMove st m.1 m.2.1 m.2.2) s

/-- The error test of the loop in checkAnswers at one position: a
user-editable, non-empty cell of the play board that differs from the solved
board. -/
def errorCondition (s : GameState) (p : Fin 9 × Fin 9) : Bool :=
  (s.initialPuzzle p.1 p.2 == 0) && (!(s.puzzleBoard p.1 p.2 == 0)) &&
    (!(s.puzzleBoard p.1 p.2 == s.solvedBoard p.1 p.2))

/-- The set of positions flagged by the loop of checkAnswers, in row-major
order. -/
def errorCells (s : GameState) : List (Fin 9 × Fin 9) :=
  allPositions.filter (errorCondition s)

/-- hasErrors as computed by the loop of checkAnswers. -/
def hasErrors (s : GameState) : Bool :=
  allPositions.any (errorCondition s)

/-- resetPuzzle from the source: the play board reverts to the initial puzzle
and the game is reactivated. -/
def resetPuzzle (s : GameState) : GameState :=
  { s with puzzleBoard := s.initialPuzzle, gameActive := true }

/-- initializeGame from the source: generate a full board from the empty one,
carve a puzzle from it, snapshot the puzzle as the initial puzzle and start
play on a copy of it. -/
def initializeGame (streams : Nat → List Nat) (order : List (Fin 9 × Fin 9))
    (holes : Nat) : Option GameState :=
  match genSolve streams 82 emptyBoard 0 with
  | none => none
  | some (g, _, _) =>
    some { solvedBoard := g, initialPuzzle := createPuzzle g holes order,
           puzzleBoard := createPuzzle g holes order, gameActive := true }

/-- A game state whose three boards are all the demo grid. -/
def demoState : GameState :=
  { solvedBoard := demoGrid, initialPuzzle := demoGrid,
    puzzleBoard := demoGrid, gameActive := true }

/-- The game state produced by initializeGame when the very first candidate
list is empty: generation fails immediately and every board stays empty. -/
def emptyState : GameState :=
  { solvedBoard := emptyBoard, initialPuzzle := emptyBoard,
    puzzleBoard := emptyBoard, gameActive := true }

/-- A puzzle with exactly two completions: the six cells of demoGrid in
columns 0 and 6 of the top three rows are cleared. -/
def mutB : Board :=
  fun i j => if i.val ≤ 2 ∧ (j.val = 0 ∨ j.val = 6) then 0 else demoGrid i j

/-- A game state whose play board is empty while the answer key is the demo
grid, so every cell of the play board disagrees with the solved board. -/
def mixedState : GameState :=
  { solvedBoard := demoGrid, initialPuzzle := demoGrid,
    puzzleBoard := emptyBoard, gameActive := true }

/-! ### Facts about the game session -/

lemma applyMove_given (s : GameState) (a b : Fin 9) (v : Nat)
    (h : s.initialPuzzle a b ≠ 0) : applyMove s a b v = s := by
  unfold applyMove
  by_cases hact : s.gameActive = false
  · rw [if_pos hact]
  · rw [if_neg hact, if_pos h]

lemma checkWinCondition_boards (s : GameState) :
    (checkWinCondition s).puzzleBoard = s.puzzleBoard ∧
    (checkWinCondition s).initialPuzzle = s.initialPuzzle ∧
    (checkWinCondition s).solvedBoard = s.solvedBoard := by
  unfold checkWinCondition
  by_cases h : checkWinB s = true
  · rw [if_pos h]
    exact ⟨rfl, rfl, rfl⟩
  · rw [if_neg h]
    exact ⟨rfl, rfl, rfl⟩

lemma applyMove_initial (s : GameState) (a b : Fin 9) (v : Nat) :
    (applyMove s a b v).initialPuzzle = s.initialPuzzle := by
  unfold applyMove
  by_cases hact : s.gameActive = false
  · rw [if_pos hact]
  · rw [if_neg hact]
    by_cases hg : s.initialPuzzle a b ≠ 0
    · rw [if_pos hg]
    · rw [if_neg hg]
      exact (checkWinCondition_boards _).2.1

lemma applyMove_keeps_given (s : GameState) (a b : Fin 9) (v : Nat) (r c : Fin 9)
    (h : s.initialPuzzle r c ≠ 0) :
    (applyMove s a b v).puzzleBoard r c = s.puzzleBoard r c := by
  unfold applyMove
  by_cases hact : s.gameActive = false
  · rw [if_pos hact]
  · rw [if_neg hact]
    by_cases hg : s.initialPuzzle a b ≠ 0
    · rw [if_pos hg]
    · rw [if_neg hg]
      rw [(checkWinCondition_boards _).1]
      have hne : ¬(r = a ∧ c = b) := by
        rintro ⟨rfl, rfl⟩
        exact hg h
      exact setCell_other s.puzzleBoard a b r c v hne

lemma applyMoves_keeps_given (moves : List (Fin 9 × Fin 9 × Nat)) :
    ∀ (s : GameState) (r c : Fin 9), s.initialPuzzle r c ≠ 0 →
      (applyMoves s moves).initialPuzzle = s.initialPuzzle ∧
      (applyMoves s moves).puzzleBoard r c = s.puzzleBoard r c := by
  induction moves with
  | nil =>
    intro s r c _
    exact ⟨rfl, rfl⟩
  | cons m rest ih =>
    intro s r c h
    have hstep : applyMoves s (m :: rest) = applyMoves (applyMove s m.1 m.2.1 m.2.2) rest :=
      rfl
    rw [hstep]
    have hinit := applyMove_initial s m.1 m.2.1 m.2.2
    have h' : (applyMove s m.1 m.2.1 m.2.2).initialPuzzle r c ≠ 0 := by
      rw [hinit]
      exact h
    obtain ⟨h1, h2⟩ := ih (applyMove s m.1 m.2.1 m.2.2) r c h'
    refine ⟨by rw [h1, hinit], ?_⟩
    rw [h2]
    exact applyMove_keeps_given s m.1 m.2.1 m.2.2 r c h

lemma errorCells_empty_of_eq (s : GameState)
    (h : s.puzzleBoard = s.initialPuzzle) : errorCells s = [] := by
  unfold errorCells
  rw [List.filter_eq_nil_iff]
  intro p _
  unfold errorCondition
  rw [h]
  by_cases h0 : s.initialPuzzle p.1 p.2 = 0
  · simp [h0]
  · simp [h0]

lemma boxCell_val (n : Fin 9) (d : Fin 3) :
    (boxCell n d).val = n.val / 3 * 3 + d.val := rfl

lemma demoGrid_solved : isSolvedGrid demoGrid := by decide

lemma demoGrid_ok : okBoard demoGrid := by decide

lemma demoGrid_inRange : inRange demoGrid := by decide

lemma list19_pos : ∀ num ∈ ([1, 2, 3, 4, 5, 6, 7, 8, 9] : List Nat), 1 ≤ num := by decide

/-! ### The claims -/

/-- Claim C1: for every Solved Grid G, every hole count and every visiting
order, the board P returned by createPuzzle satisfies countSolutions P = 1,
every non-zero cell of P equals the corresponding cell of G, and the number
of zero cells of P is at most the hole count. -/
theorem claim_C1 (G : Board) (hG : isSolvedGrid G) (holeCount : Nat)
    (order : List (Fin 9 × Fin 9)) :
    countSolutions (createPuzzle G holeCount order) = 1 ∧
    (∀ i j, createPuzzle G holeCount order i j ≠ 0 →
      createPuzzle G holeCount order i j = G i j) ∧
    emptyCount (createPuzzle G holeCount order) ≤ holeCount :=
  createPuzzle_spec G hG holeCount order

theorem claim_C1_witness :
    isSolvedGrid demoGrid ∧ countSolutions (createPuzzle demoGrid 0 []) = 1 :=
  ⟨demoGrid_solved, (claim_C1 demoGrid demoGrid_solved 0 []).1⟩

/-- Claim C2: whenever every shuffled candidate list is a permutation of
1..9, generateSolvedSudokuGrid on the empty board returns true and the final
board is a Solved Grid: every cell in [1,9] and every row, column and box
holding each of 1..9 exactly once. -/
theorem claim_C2 (streams : Nat → List Nat)
    (hperm : ∀ k, (streams k).Perm [1, 2, 3, 4, 5, 6, 7, 8, 9]) :
    ∃ b', generateSolvedSudokuGrid streams emptyBoard = some (b', true) ∧
      isSolvedGrid b' := by
  have hmem9 : ∀ k num, 1 ≤ num → num ≤ 9 → num ∈ streams k := by
    intro k num h1 h9
    rw [List.Perm.mem_iff (hperm k)]
    exact mem_list19 num h1 h9
  have hrange9 : ∀ k num, num ∈ streams k → 1 ≤ num ∧ num ≤ 9 := by
    intro k num hm
    rw [List.Perm.mem_iff (hperm k)] at hm
    have hh : ∀ x ∈ ([1, 2, 3, 4, 5, 6, 7, 8, 9] : List Nat), 1 ≤ x ∧ x ≤ 9 := by decide
    exact hh num hm
  have hpos : ∀ k num, num ∈ streams k → 1 ≤ num := fun k num hm => (hrange9 k num hm).1
  have hext : extendsB emptyBoard demoGrid := fun i j hij => absurd rfl hij
  have hce : emptyCount emptyBoard < 82 := by
    have := emptyCount_le_81 emptyBoard
    omega
  obtain ⟨b', k', hgen⟩ :=
    genSolve_complete streams demoGrid demoGrid_solved hmem9 hpos 82 emptyBoard 0 hce hext
  have hsolved := genSolve_sound streams hrange9 82 emptyBoard 0 b' k'
    (fun i j hij => absurd rfl hij) (fun i j => Nat.zero_le 9) hgen
  refine ⟨b', ?_, hsolved⟩
  unfold generateSolvedSudokuGrid
  rw [hgen]

theorem claim_C2_witness :
    ∃ b', generateSolvedSudokuGrid (fun _ => [1, 2, 3, 4, 5, 6, 7, 8, 9]) emptyBoard =
      some (b', true) ∧ isSolvedGrid b' :=
  claim_C2 (fun _ => [1, 2, 3, 4, 5, 6, 7, 8, 9]) (fun _ => List.Perm.refl _)

/-- Claim C3: isValidPlacement returns false exactly when the value occurs at
a cell other than (r, c) itself in row r, in column c, or in the 3 by 3 box
spanning rows floor(r/3)*3 .. floor(r/3)*3+2 and columns
floor(c/3)*3 .. floor(c/3)*3+2. -/
theorem claim_C3 (b : Board) (v : Nat) (r c : Fin 9) :
    isValidPlacement b v r c = false ↔
      (∃ j, j ≠ c ∧ b r j = v) ∨ (∃ i, i ≠ r ∧ b i c = v) ∨
      (∃ i j : Fin 9, (r.val / 3 * 3 ≤ i.val ∧ i.val < r.val / 3 * 3 + 3) ∧
        (c.val / 3 * 3 ≤ j.val ∧ j.val < c.val / 3 * 3 + 3) ∧
        ¬(i = r ∧ j = c) ∧ b i j = v) := by
  have hchar := isValid_iff b v r c
  constructor
  · intro hfalse
    by_contra hcon
    push_neg at hcon
    obtain ⟨h1, h2, h3⟩ := hcon
    have htrue : isValidPlacement b v r c = true := by
      rw [hchar]
      refine ⟨fun j hj => ?_, fun i hi => ?_, fun di dj hd => ?_⟩
      · by_contra hne
        exact absurd hj (h1 j hne)
      · by_contra hne
        exact absurd hi (h2 i hne)
      · by_contra hne
        apply absurd hd
        apply h3 (boxCell r di) (boxCell c dj)
        · rw [boxCell_val]
          have := di.isLt
          omega
        · rw [boxCell_val]
          have := dj.isLt
          omega
        · intro hir hjc
          exact hne ⟨hir, hjc⟩
    rw [htrue] at hfalse
    exact absurd hfalse (by decide)
  · intro hex
    rcases hex with ⟨j, hjne, hjv⟩ | ⟨i, hine, hiv⟩ | ⟨i, j, hispan, hjspan, hne, hv⟩
    · by_contra hft
      have htrue : isValidPlacement b v r c = true := by simpa using hft
      rw [hchar] at htrue
      exact hjne (htrue.1 j hjv)
    · by_contra hft
      have htrue : isValidPlacement b v r c = true := by simpa using hft
      rw [hchar] at htrue
      exact hine (htrue.2.1 i hiv)
    · by_contra hft
      have htrue : isValidPlacement b v r c = true := by simpa using hft
      rw [hchar] at htrue
      have hdiv_i : i.val / 3 = r.val / 3 := by omega
      have hdiv_j : j.val / 3 = c.val / 3 := by omega
      have hbi : boxCell r ⟨i.val % 3, Nat.mod_lt _ (by omega)⟩ = i :=
        boxCell_of_div_eq i r hdiv_i
      have hbj : boxCell c ⟨j.val % 3, Nat.mod_lt _ (by omega)⟩ = j :=
        boxCell_of_div_eq j c hdiv_j
      have hcc := htrue.2.2 ⟨i.val % 3, Nat.mod_lt _ (by omega)⟩
        ⟨j.val % 3, Nat.mod_lt _ (by omega)⟩ (by rw [hbi, hbj]; exact hv)
      rw [hbi, hbj] at hcc
      exact hne hcc

/-- Claim C4: on a board whose non-zero entries satisfy the constraints and
whose entries lie in [0,9], countSolutions returns the exact number of
completions when that number is 0 or 1, returns exactly 2 when there are two
or more completions, and never exceeds 2. -/
theorem claim_C4 (b : Board) (hok : okBoard b) (hrange : inRange b) :
    (numSolutions b ≤ 1 → countSolutions b = numSolutions b) ∧
    (2 ≤ numSolutions b → countSolutions b = 2) ∧
    countSolutions b ≤ 2 := by
  have h := countSolutions_eq_min b hok hrange
  refine ⟨fun h1 => ?_, fun h2 => ?_, ?_⟩ <;> omega

theorem claim_C4_witness :
    okBoard demoGrid ∧ inRange demoGrid ∧ countSolutions demoGrid ≤ 2 :=
  ⟨demoGrid_ok, demoGrid_inRange, (claim_C4 demoGrid demoGrid_ok demoGrid_inRange).2.2⟩

/-- Claim C5: every engine operation terminates with fuel 82, which covers
every 9 by 9 board: the generator and the capped counter return a result on
every board, and carving with holeCount 81 from any Solved Grid returns a
board that still has exactly one solution. -/
theorem claim_C5 :
    (∀ streams : Nat → List Nat, (∀ k num, num ∈ streams k → 1 ≤ num) →
      ∀ b : Board, ∃ res, generateSolvedSudokuGrid streams b = some res) ∧
    (∀ (b : Board) (cnt : Nat), ∃ res, csSolve 82 b cnt = some res) ∧
    (∀ G : Board, isSolvedGrid G → ∀ order,
      countSolutions (createPuzzle G 81 order) = 1) := by
  refine ⟨?_, ?_, ?_⟩
  · intro streams hpos b
    obtain ⟨res, hres⟩ := genSolve_total streams hpos 82 b 0
      (by have := emptyCount_le_81 b; omega)
    obtain ⟨b', flag, k'⟩ := res
    refine ⟨(b', flag), ?_⟩
    unfold generateSolvedSudokuGrid
    rw [hres]
  · intro b cnt
    exact csSolve_total 82 b cnt (by have := emptyCount_le_81 b; omega)
  · intro G hG order
    exact (createPuzzle_spec G hG 81 order).1

theorem claim_C5_witness :
    (∃ res, generateSolvedSudokuGrid (fun _ => [1, 2, 3, 4, 5, 6, 7, 8, 9]) emptyBoard =
      some res) ∧
    (∃ res, csSolve 82 emptyBoard 0 = some res) ∧
    countSolutions (createPuzzle demoGrid 81 []) = 1 :=
  ⟨claim_C5.1 (fun _ => [1, 2, 3, 4, 5, 6, 7, 8, 9]) (fun _ num hm => list19_pos num hm)
    emptyBoard,
   claim_C5.2.1 emptyBoard 0,
   claim_C5.2.2 demoGrid demoGrid_solved []⟩

/-- Claim C6: a move aimed at a cell where the initial puzzle is non-zero is
a silent no-op that changes no state, and over any sequence of moves such
cells keep their value in the play board while the initial puzzle itself
never changes. -/
theorem claim_C6 :
    (∀ (s : GameState) (r c : Fin 9) (v : Nat), s.initialPuzzle r c ≠ 0 →
      applyMove s r c v = s) ∧
    (∀ (s : GameState) (moves : List (Fin 9 × Fin 9 × Nat)) (r c : Fin 9),
      s.initialPuzzle r c ≠ 0 →
      (applyMoves s moves).initialPuzzle r c = s.initialPuzzle r c ∧
      (applyMoves s moves).puzzleBoard r c = s.puzzleBoard r c) := by
  refine ⟨fun s r c v h => applyMove_given s r c v h, fun s moves r c h => ?_⟩
  obtain ⟨h1, h2⟩ := applyMoves_keeps_given moves s r c h
  exact ⟨by rw [h1], h2⟩

theorem claim_C6_witness :
    demoState.initialPuzzle 0 0 ≠ 0 ∧ applyMove demoState 0 0 5 = demoState ∧
    (applyMoves demoState [(0, 0, 5)]).puzzleBoard 0 0 = demoState.puzzleBoard 0 0 :=
  ⟨by decide, claim_C6.1 demoState 0 0 5 (by decide),
   (claim_C6.2 demoState [(0, 0, 5)] 0 0 (by decide)).2⟩

/-- Claim C7: the win test holds exactly when the play board has no zero cell
and matches the solved board cell for cell; in particular a board with some
cell differing from the solved board is not a win. -/
theorem claim_C7 :
    (∀ s : GameState, checkWinB s = true ↔
      ∀ i j, s.puzzleBoard i j ≠ 0 ∧ s.puzzleBoard i j = s.solvedBoard i j) ∧
    (∀ s : GameState, (∃ i j, s.puzzleBoard i j ≠ s.solvedBoard i j) →
      checkWinB s = false) := by
  have hiff : ∀ s : GameState, checkWinB s = true ↔
      ∀ i j, s.puzzleBoard i j ≠ 0 ∧ s.puzzleBoard i j = s.solvedBoard i j := by
    intro s
    unfold checkWinB
    rw [List.all_eq_true]
    constructor
    · intro h i j
      have := h (i, j) (mem_allPositions _)
      simpa using this
    · intro h p _
      have := h p.1 p.2
      simpa using this
  refine ⟨hiff, fun s hex => ?_⟩
  obtain ⟨i, j, hij⟩ := hex
  by_contra hft
  have htrue : checkWinB s = true := by simpa using hft
  exact hij (((hiff s).mp htrue i j)).2

theorem claim_C7_witness :
    (∃ i j, mixedState.puzzleBoard i j ≠ mixedState.solvedBoard i j) ∧
    checkWinB mixedState = false :=
  ⟨⟨0, 0, by decide⟩, claim_C7.2 mixedState ⟨0, 0, by decide⟩⟩

/-- Claim C8: the positions flagged by checkAnswers are exactly the cells
where the initial puzzle is zero, the play board is non-zero and the play
board differs from the solved board; immediately after initializeGame the set
is empty; and hasErrors holds exactly when the set is non-empty. -/
theorem claim_C8 :
    (∀ (s : GameState) (p : Fin 9 × Fin 9), p ∈ errorCells s ↔
      (s.initialPuzzle p.1 p.2 = 0 ∧ s.puzzleBoard p.1 p.2 ≠ 0 ∧
        s.puzzleBoard p.1 p.2 ≠ s.solvedBoard p.1 p.2)) ∧
    (∀ streams order holes s, initializeGame streams order holes = some s →
      errorCells s = []) ∧
    (∀ s : GameState, hasErrors s = true ↔ errorCells s ≠ []) := by
  refine ⟨?_, ?_, ?_⟩
  · intro s p
    unfold errorCells
    rw [List.mem_filter]
    unfold errorCondition
    simp [mem_allPositions]
    exact and_assoc
  · intro streams order holes s hinit
    unfold initializeGame at hinit
    cases hgen : genSolve streams 82 emptyBoard 0 with
    | none =>
      rw [hgen] at hinit
      simp at hinit
    | some res =>
      obtain ⟨g, flag, k⟩ := res
      rw [hgen] at hinit
      simp only [Option.some.injEq] at hinit
      rw [← hinit]
      exact errorCells_empty_of_eq _ rfl
  · intro s
    unfold hasErrors
    rw [List.any_eq_true]
    constructor
    · rintro ⟨p, hp, hcond⟩ hnil
      unfold errorCells at hnil
      rw [List.filter_eq_nil_iff] at hnil
      exact hnil p hp hcond
    · intro hne
      by_contra hnex
      push_neg at hnex
      apply hne
      unfold errorCells
      rw [List.filter_eq_nil_iff]
      intro p hp
      intro hcond
      exact hnex p hp hcond

theorem claim_C8_witness :
    initializeGame (fun _ => []) [] 0 = some emptyState ∧ errorCells emptyState = [] :=
  ⟨rfl, claim_C8.2.1 (fun _ => []) [] 0 emptyState rfl⟩

/-- Claim C9: resetPuzzle sets the play board to the initial puzzle and
leaves both the solved board and the initial puzzle unchanged. -/
theorem claim_C9 (s : GameState) :
    (resetPuzzle s).puzzleBoard = s.initialPuzzle ∧
    (resetPuzzle s).solvedBoard = s.solvedBoard ∧
    (resetPuzzle s).initialPuzzle = s.initialPuzzle :=
  ⟨rfl, rfl, rfl⟩

/-- Claim C10: the counting search returns its input board unchanged whenever
it finishes with count at most 1, and on a board with two solutions it aborts
with count 2 leaving the board mutated: cell (0,0) of mutB is empty on entry
and holds 7 in the returned board. -/
theorem claim_C10 :
    (∀ (fuel : Nat) (b : Board) (cnt : Nat) (res : Nat × Board),
      csSolve fuel b cnt = some res → res.1 ≤ 1 → res.2 = b) ∧
    (csSolve 82 mutB 0).map (fun x => x.1) = some 2 ∧
    (csSolve 82 mutB 0).map (fun x => x.2 0 0) = some 7 ∧
    mutB 0 0 = 0 :=
  ⟨csSolve_restore, by decide, by decide, by decide⟩

theorem claim_C10_witness :
    csSolve 82 demoGrid 0 = some (1, demoGrid) ∧ (1 : Nat) ≤ 1 ∧
    ((1 : Nat), demoGrid).2 = demoGrid :=
  ⟨rfl, by decide, claim_C10.1 82 demoGrid 0 (1, demoGrid) rfl (by decide)⟩

end Sudoku
